import Mathlib

/-!
Verification of the ModularTokenizer core
(`fusedrug/data/tokenizer/modulartokenizer/modular_tokenizer.py`).

Shallow embedding conventions:
* a Python `dict` is modelled as an association list whose keys are distinct;
  insertion order is preserved, as CPython dicts do;
* Python `max(xs)` on a list is modelled by `pyMax`, which returns `none`
  on an empty list (Python raises `ValueError` there);
* functions that can raise are modelled with `Except PyErr` or `Option`;
* Python `set` iteration order is unspecified; wherever the source iterates
  a set we fix first-occurrence order, and every theorem proved below is
  insensitive to that order (it only uses counts and membership, or the
  subsequent value-sort makes the order canonical).
-/

/-- Error kinds raised by the modelled Python code. -/
inductive PyErr where
  | assertError
  | configError
  | budgetExceeded
  | nameCollision
  | valueError
  | attributeError
  | exceptionRaised
  deriving DecidableEq, Repr

/-- Association-list lookup, first match wins (Python `d[k]` / `k in d`). -/
def alookup {α β : Type} [DecidableEq α] (k : α) : List (α × β) → Option β
  | [] => none
  | p :: ps => if p.1 = k then some p.2 else alookup k ps

/-- Python `d[k] = v` on a dict: an existing key keeps its position and gets
the new value, a new key is appended at the end. -/
def dictInsert {α β : Type} [DecidableEq α] (d : List (α × β)) (k : α) (v : β) :
    List (α × β) :=
  if (alookup k d).isSome then
    d.map (fun p => if p.1 = k then (k, v) else p)
  else d ++ [(k, v)]

/-- Python dict comprehension / `dict(pairs)`: left-to-right insertion. -/
def dictOfPairs {α β : Type} [DecidableEq α] (l : List (α × β)) : List (α × β) :=
  l.foldl (fun d p => dictInsert d p.1 p.2) []

/-- Python `d.update(upd)`: left-to-right insertion of `upd` into `d`. -/
def dictUpdate {α β : Type} [DecidableEq α] (d upd : List (α × β)) : List (α × β) :=
  upd.foldl (fun d p => dictInsert d p.1 p.2) d

/-- Python `max` over a list of naturals; `none` models the `ValueError`
raised on an empty sequence. -/
def pyMax : List Nat → Option Nat
  | [] => none
  | x :: xs => some (xs.foldl Nat.max x)

/-- Models `{t[0]: i + starting_index for i, t in enumerate(l)}`: the k-th
pair of `l` has its value replaced by `start + k`. -/
def assignIds : Nat → List (String × Nat) → List (String × Nat)
  | _, [] => []
  | n, p :: ps => (p.1, n) :: assignIds (n + 1) ps

/-- Comparison by the value component, used to model Python's
`sorted(..., key=lambda x: x[1])`. -/
def leSnd (a b : String × Nat) : Prop := a.2 ≤ b.2

instance : DecidableRel leSnd := fun a b => inferInstanceAs (Decidable (a.2 ≤ b.2))

instance : IsTotal (String × Nat) leSnd := ⟨fun a b => Nat.le_total a.2 b.2⟩

instance : IsTrans (String × Nat) leSnd := ⟨fun _ _ _ h1 h2 => Nat.le_trans h1 h2⟩

/-- A special-token structure, as built by
`ModularTokenizer.build_special_token_list`. -/
structure SpecialTokenStruct where
  id : Nat
  content : String
  single_word : Bool := false
  lstrip : Bool := false
  rstrip : Bool := false
  normalized : Bool := false
  special : Bool := true
  deriving DecidableEq, Repr

/-- One sub-tokenizer json instance: its `added_tokens` array and its
`model.vocab` dict (the rest of the json is irrelevant to the claims). -/
structure SubTok where
  name : String
  added_tokens : List SpecialTokenStruct
  vocab : List (String × Nat)
  deriving DecidableEq, Repr

/-- One entry of `self.decoder_dict`. -/
structure DecoderEntry where
  token : String
  is_special : Bool
  deriving DecidableEq, Repr

/-- The state of a `ModularTokenizer` relevant to the claims. -/
structure ModularTokenizerState where
  subs : List SubTok
  max_possible_token_id : Option Nat
  max_special_token_id : Option Nat
  decoder_dict : List (Nat × DecoderEntry)
  deriving DecidableEq, Repr

/-- Models `ModularTokenizer.build_special_token_list` in its
`token_ids=None` form (the only form the repository ever calls): token k
receives id `starting_index + k`, with `starting_index` defaulting to 0. -/
def build_special_token_list (special_tokens : List String)
    (starting_index : Option Nat) : List SpecialTokenStruct :=
  let start := starting_index.getD 0
  (assignIds start (special_tokens.map (fun v => (v, 0)))).map
    (fun p => { id := p.2, content := p.1 })

/-- Models `ModularTokenizer.remap_vocab`.  Returns `none` when the final
`max(regular_vocab.values())` is taken over an empty sequence, which in
Python raises `ValueError`. -/
def remap_vocab (vocab : List (String × Nat))
    (special_token_structs : List SpecialTokenStruct)
    (starting_index : Option Nat) : Option (List (String × Nat) × Nat) :=
  let init_vocab : List (String × Nat) :=
    if 0 < special_token_structs.length then
      dictOfPairs (special_token_structs.map (fun t => (t.content, t.id)))
    else []
  let special_tokens : List String :=
    if 0 < special_token_structs.length then
      special_token_structs.map (fun t => t.content)
    else []
  let starting_index_val : Nat :=
    match starting_index with
    | some s => s
    | none =>
      if 0 < special_token_structs.length then
        (pyMax (special_token_structs.map (fun t => t.id))).getD 0 + 1
      else 0
  let regular_pairs := vocab.filter (fun p => p.1 ∉ special_tokens)
  let regular_sorted := List.insertionSort leSnd regular_pairs
  let regular_vocab := assignIds starting_index_val regular_sorted
  match pyMax (regular_vocab.map (fun p => p.2)) with
  | none => none
  | some m => some (dictUpdate init_vocab regular_vocab, m + 1)

/-- Models `ModularTokenizer.get_subtokenizer_added_tokens` with the default
`enforce_special=False`: the contents of the `added_tokens` array. -/
def get_subtokenizer_added_tokens (st : SubTok) : List String :=
  st.added_tokens.map (fun t => t.content)

/-- Models `ModularTokenizer.get_subtokenizer_regular_tokens`:
`set(vocab.keys()) - set(added_tokens)`, in first-occurrence order. -/
def get_subtokenizer_regular_tokens (st : SubTok) : List String :=
  ((st.vocab.map (fun p => p.1)).dedup).filter
    (fun t => t ∉ get_subtokenizer_added_tokens st)

/-- Models `ModularTokenizer.get_subtokenizer_vocab`: the vocab restricted to
`token_list` (all of it when `token_list` is absent). -/
def get_subtokenizer_vocab (st : SubTok) (token_list : Option (List String)) :
    List (String × Nat) :=
  match token_list with
  | none => st.vocab
  | some ts => ts.filterMap (fun t => (alookup t st.vocab).map (fun v => (t, v)))

/-- Python dict equality: same keys and same value at every key. -/
def dict_eq (a b : List (String × Nat)) : Bool :=
  (a.map (fun p => p.1)).all (fun k => alookup k a == alookup k b) &&
  (b.map (fun p => p.1)).all (fun k => alookup k a == alookup k b)

/-- Result of `ModularTokenizer.diagnose`: the `result` dict, one Bool per
test, `true` meaning the test passed (the offender detail lists are omitted:
no claim mentions them). -/
structure DiagnoseResult where
  special_consistency : Bool
  id_duplicates : Bool
  id_collisions : Bool
  deriving DecidableEq, Repr

/-- Models `ModularTokenizer.diagnose`.  All three tests are run only when
there is more than one sub-tokenizer; otherwise every test trivially passes.
The running `all_inds_set` is kept as a duplicate-free list so that its
length matches the Python set's cardinality. -/
def diagnose (mt : ModularTokenizerState) : DiagnoseResult :=
  if 1 < mt.subs.length then
    match mt.subs with
    | [] => ⟨true, true, true⟩
    | st0 :: _ =>
      let special_tokens_vocab :=
        get_subtokenizer_vocab st0 (some (get_subtokenizer_added_tokens st0))
      let sc := mt.subs.all (fun st =>
        dict_eq special_tokens_vocab
          (get_subtokenizer_vocab st (some (get_subtokenizer_added_tokens st))))
      let step := mt.subs.foldl
        (fun (acc : Bool × Bool × List Nat) st =>
          let ids := (get_subtokenizer_vocab st
            (some (get_subtokenizer_regular_tokens st))).map (fun p => p.2)
          let idset := ids.dedup
          let dupOK := acc.1 && (ids.length == idset.length)
          let merged := acc.2.2 ++ idset.filter (fun i => i ∉ acc.2.2)
          let collOK := acc.2.1 && (merged.length == acc.2.2.length + idset.length)
          (dupOK, collOK, merged))
        (true, true, [])
      let spIds := special_tokens_vocab.map (fun p => p.2)
      let spIdSet := spIds.dedup
      let dupOK := step.1 && (spIds.length == spIdSet.length)
      let merged := step.2.2 ++ spIdSet.filter (fun i => i ∉ step.2.2)
      let collOK := step.2.1 && (merged.length == step.2.2.length + spIdSet.length)
      ⟨sc, dupOK, collOK⟩
  else ⟨true, true, true⟩

/-- Models `ModularTokenizer.is_consistent`: no test of `diagnose` failed. -/
def is_consistent (mt : ModularTokenizerState) : Bool :=
  let r := diagnose mt
  r.special_consistency && r.id_duplicates && r.id_collisions

/-- Models `ModularTokenizer.update_id2token_mapping`: ids already present
keep their first entry (the source logs a warning there), new ids are
appended. -/
def update_id2token_mapping (id2token : List (Nat × DecoderEntry))
    (add_vocab : List (String × Nat)) (is_sp : Bool) : List (Nat × DecoderEntry) :=
  add_vocab.foldl
    (fun acc p =>
      if (alookup p.2 acc).isSome then acc
      else acc ++ [(p.2, { token := p.1, is_special := is_sp })])
    id2token

/-- Models `ModularTokenizer.build_inner_decoder`: special tokens are
registered while the decoder is still empty, then every sub-tokenizer
contributes its regular tokens. -/
def build_inner_decoder (subs : List SubTok) : List (Nat × DecoderEntry) :=
  subs.foldl
    (fun dec st =>
      let dec :=
        if dec.length == 0 then
          update_id2token_mapping dec
            (get_subtokenizer_vocab st (some (get_subtokenizer_added_tokens st))) true
        else dec
      update_id2token_mapping dec
        (get_subtokenizer_vocab st (some (get_subtokenizer_regular_tokens st))) false)
    []

/-- Models lines 107-118 of `ModularTokenizer.__init__` (fresh build):
build the common special-token structures with ids `0, 1, ...`, set
`next_index` to the largest special id plus one, and apply the
`max_special_token_id` check: raise `ConfigError` when
`next_index > max_special_token_id`, otherwise continue with
`max_special_token_id + 1`. -/
def fresh_build_next_index (all_special_tokens : List String)
    (max_special_token_id : Option Nat) : Except PyErr Nat :=
  let structs := build_special_token_list all_special_tokens none
  match pyMax (structs.map (fun t => t.id)) with
  | none => .error .valueError
  | some m =>
    let next_index := m + 1
    match max_special_token_id with
    | none => .ok next_index
    | some mx =>
      if mx < next_index then .error .configError
      else .ok (mx + 1)

/-- Models the special-token gathering of `ModularTokenizer.__init__`:
`special_tokens_dict` values, then `additional_tokens_list`, then each
sub-tokenizer's added tokens that are not already listed. -/
def gather_all_special_tokens (special_tokens_list additional_tokens : List String)
    (subs : List SubTok) : List String :=
  subs.foldl
    (fun all st =>
      all ++ (get_subtokenizer_added_tokens st).filter (fun t => t ∉ all))
    (special_tokens_list ++ additional_tokens)

/-- One step of the per-sub-tokenizer remapping loop of
`ModularTokenizer.__init__`: overwrite `added_tokens` with the common
structures and remap `model.vocab` with the running `next_index`. -/
def init_remap_step (structs : List SpecialTokenStruct)
    (acc : Except PyErr (List SubTok × Nat)) (st : SubTok) :
    Except PyErr (List SubTok × Nat) :=
  match acc with
  | .error e => .error e
  | .ok (done, nxt) =>
    match remap_vocab st.vocab structs (some nxt) with
    | none => .error .valueError
    | some (nv, nxt2) =>
      .ok (done ++ [{ name := st.name, added_tokens := structs, vocab := nv }], nxt2)

/-- Models the fresh-build path of `ModularTokenizer.__init__` on the json
level: gather the common specials, run the `max_special_token_id` check,
remap every sub-tokenizer with the running `next_index`, assert that
`diagnose` passes, build the decoder, and apply the `max_possible_token_id`
check.  The engine round-trip (`Tokenizer.from_str` / `to_str`) and the
truncation setup act as the identity on the modelled fields and are not
represented. -/
def init_fresh (subs_in : List SubTok) (special_tokens_list additional_tokens : List String)
    (max_possible max_special : Option Nat) : Except PyErr ModularTokenizerState :=
  let all_special_tokens :=
    gather_all_special_tokens special_tokens_list additional_tokens subs_in
  let structs := build_special_token_list all_special_tokens none
  match fresh_build_next_index all_special_tokens max_special with
  | .error e => .error e
  | .ok next1 =>
    match subs_in.foldl (init_remap_step structs) (Except.ok ([], next1)) with
    | .error e => .error e
    | .ok (subs2, _) =>
      let mt0 : ModularTokenizerState :=
        { subs := subs2, max_possible_token_id := max_possible,
          max_special_token_id := max_special, decoder_dict := [] }
      if is_consistent mt0 then
        let mt1 : ModularTokenizerState :=
          { mt0 with decoder_dict := build_inner_decoder subs2 }
        match max_possible with
        | none => .ok mt1
        | some mxp =>
          match pyMax (mt1.decoder_dict.map (fun p => p.1)) with
          | none => .error .valueError
          | some mmax =>
            if mxp < mmax then .error .exceptionRaised else .ok mt1
      else .error .assertError

/-- Models `ModularTokenizer.get_added_vocab`: the first sub-tokenizer's
added tokens with their ids (the assert fails when there is none). -/
def get_added_vocab (mt : ModularTokenizerState) : Except PyErr (List (String × Nat)) :=
  match mt.subs with
  | [] => .error .assertError
  | st0 :: _ => .ok (get_subtokenizer_vocab st0 (some (get_subtokenizer_added_tokens st0)))

/-- Models `ModularTokenizer.token_to_id`.  The adapter call
`tokenizer_inst.token_to_id` is modelled as a lookup in the sub-tokenizer's
`model.vocab` (which, after remapping, holds the special and the regular
tokens with their final ids). -/
def token_to_id (mt : ModularTokenizerState) (token : String) (t_type : Option String) :
    Except PyErr (Option Nat) :=
  match t_type with
  | none =>
    let possible_ids := mt.subs.filterMap (fun st => alookup token st.vocab)
    let possible_ids_unique := possible_ids.dedup
    if possible_ids_unique.length = 0 then .ok none
    else if possible_ids_unique.length = 1 then .ok possible_ids_unique.head?
    else .error .exceptionRaised
  | some ty =>
    match mt.subs.find? (fun st => st.name == ty) with
    | none => .error .exceptionRaised
    | some st => .ok (alookup token st.vocab)

/-- Models `ModularTokenizer.decode`. -/
def decode (mt : ModularTokenizerState) (ids : List Nat) (skip_special_tokens : Bool) :
    String :=
  if skip_special_tokens then
    String.join (ids.filterMap (fun i =>
      match alookup i mt.decoder_dict with
      | some e => if e.is_special then none else some e.token
      | none => none))
  else
    String.join (ids.map (fun i =>
      match alookup i mt.decoder_dict with
      | some e => e.token
      | none => "<@TOKEN_MISSING-" ++ toString i ++ ">"))

/-- Models the inner `update_vocab` of `ModularTokenizer.add_special_tokens`:
merge the new special structures into the vocab and re-sort it by id
(stable, like Python's `sorted`).  The source raises on an empty structure
list; its only caller guards against that, so the guard is not modelled. -/
def update_vocab (vocab : List (String × Nat))
    (special_token_structs : List SpecialTokenStruct) : List (String × Nat) :=
  List.insertionSort leSnd
    (dictUpdate vocab (special_token_structs.map (fun t => (t.content, t.id))))

/-- Models `ModularTokenizer.add_special_tokens`.  Python builds the
candidate list through sets; here first-occurrence order is fixed, which
affects neither the count returned nor any failure condition.  The branch
taken when only `max_possible_token_id` is set reads
`self.self._max_possible_token_id` in the source and therefore raises
`AttributeError` unconditionally. -/
def add_special_tokens (mt : ModularTokenizerState) (tokens : List String) :
    Except PyErr (ModularTokenizerState × Nat) :=
  match get_added_vocab mt with
  | .error e => .error e
  | .ok special_vocab =>
    let current_special_tokens := special_vocab.map (fun p => p.1)
    let tokens1 := tokens.dedup.filter (fun t => t ∉ current_special_tokens)
    let all_existing_tokens := mt.decoder_dict.map (fun p => p.2.token)
    let tokens_regular := tokens1.filter (fun t => t ∈ all_existing_tokens)
    let tokens2 := tokens1.filter (fun t => t ∉ all_existing_tokens)
    if 0 < tokens_regular.length then .error .nameCollision
    else if tokens2.length = 0 then .ok (mt, 0)
    else
      let next_idE : Except PyErr Nat :=
        match mt.max_special_token_id with
        | some mx =>
          match pyMax (special_vocab.map (fun p => p.2)) with
          | none => .error .valueError
          | some m =>
            let next_id := m + 1
            if (mx : Int) - (next_id : Int) < (tokens2.length : Int) then
              .error .budgetExceeded
            else .ok next_id
        | none =>
          match mt.max_possible_token_id with
          | some _ => .error .attributeError
          | none =>
            match pyMax (mt.decoder_dict.map (fun p => p.1)) with
            | none => .error .valueError
            | some m => .ok (m + 1)
      match next_idE with
      | .error e => .error e
      | .ok next_id =>
        let structs := build_special_token_list tokens2 (some next_id)
        let subs2 := mt.subs.map (fun st =>
          { name := st.name,
            added_tokens := st.added_tokens ++ structs,
            vocab := update_vocab st.vocab structs })
        let mt2 : ModularTokenizerState :=
          { subs := subs2,
            max_possible_token_id := mt.max_possible_token_id,
            max_special_token_id := mt.max_special_token_id,
            decoder_dict := build_inner_decoder subs2 }
        .ok (mt2, tokens2.length)

/-- The literal part of the directive regex `<@TOKENIZER-TYPE=([^>]*)>`. -/
def directive_literal : List Char := "<@TOKENIZER-TYPE=".toList

/-- Tries to match the directive regex at the head of `s`: the literal
prefix, then a maximal run of non-`>` characters (the capture group), then
`>`.  Returns the captured name and the remainder. -/
def match_directive (s : List Char) : Option (List Char × List Char) :=
  if directive_literal.isPrefixOf s then
    match (s.drop directive_literal.length).drop
        ((s.drop directive_literal.length).takeWhile (fun c => c != '>')).length with
    | '>' :: rest =>
      some ((s.drop directive_literal.length).takeWhile (fun c => c != '>'), rest)
    | _ => none
  else none

/-- Fuel-indexed scan modelling Python's `re.split` with one capture group:
the result alternates text pieces and captured names, starting with the text
before the first match.  With fuel at least the length of the input the fuel
never runs out. -/
def re_split_go : Nat → List Char → List (List Char)
  | 0, s => [s]
  | _ + 1, [] => [[]]
  | fuel + 1, c :: cs =>
    match match_directive (c :: cs) with
    | some (name, rest) => [] :: name :: re_split_go fuel rest
    | none =>
      match re_split_go fuel cs with
      | [] => [[c]]
      | pre :: parts => (c :: pre) :: parts

/-- Models `re.split("<@TOKENIZER-TYPE=([^>]*)>", sequence)`. -/
def re_split (s : List Char) : List (List Char) := re_split_go s.length s

/-- Elements of a list at even positions (`l[::2]`). -/
def evens {α : Type} : List α → List α
  | [] => []
  | x :: xs =>
    x :: match xs with
         | [] => []
         | _ :: ys => evens ys

/-- Elements of a list at odd positions (`l[1::2]`). -/
def odds {α : Type} : List α → List α
  | [] => []
  | _ :: xs => evens xs

/-- Models the parsing stage of `ModularTokenizer.encode` (lines 997-1011):
split on the directive regex, drop the first piece unconditionally, assert
that the rest is nonempty of even length, and pair up names with bodies. -/
def encode_parse_segments (sequence : List Char) :
    Except PyErr (List (List Char × List Char)) :=
  let hints_and_subseq := (re_split sequence).drop 1
  if 0 < hints_and_subseq.length ∧ hints_and_subseq.length % 2 = 0 then
    .ok (List.zip (evens hints_and_subseq) (odds hints_and_subseq))
  else .error .assertError

/-- Interleaving of a list of pairs, the shape of the tail of a
`re.split` result with one capture group. -/
def interleave {α : Type} : List (α × α) → List α
  | [] => []
  | p :: ps => p.1 :: p.2 :: interleave ps

theorem alookup_eq_none_iff {α β : Type} [DecidableEq α] (k : α) (l : List (α × β)) :
    alookup k l = none ↔ k ∉ l.map (fun p => p.1) := by
  induction l with
  | nil => simp [alookup]
  | cons p ps ih =>
    by_cases h : p.1 = k
    · simp [alookup, h]
    · simp [alookup, h, ih, Ne.symm h]

theorem alookup_append {α β : Type} [DecidableEq α] (k : α) (a b : List (α × β)) :
    alookup k (a ++ b) =
      match alookup k a with
      | some v => some v
      | none => alookup k b := by
  induction a with
  | nil => simp [alookup]
  | cons p ps ih =>
    by_cases h : p.1 = k
    · simp [alookup, h]
    · simpa [alookup, h] using ih

theorem alookup_mem {α β : Type} [DecidableEq α] {k : α} {v : β} {l : List (α × β)}
    (h : alookup k l = some v) : (k, v) ∈ l := by
  induction l with
  | nil => simp [alookup] at h
  | cons p ps ih =>
    by_cases hk : p.1 = k
    · simp only [alookup, if_pos hk, Option.some.injEq] at h
      have : p = (k, v) := by
        cases p
        simp only [Prod.mk.injEq]
        exact ⟨hk, h⟩
      rw [← this]
      exact List.mem_cons_self _ _
    · simp only [alookup, if_neg hk] at h
      exact List.mem_cons_of_mem _ (ih h)

theorem alookup_of_mem_of_nodupkeys {α β : Type} [DecidableEq α] {k : α} {v : β}
    {l : List (α × β)} (hn : (l.map (fun p => p.1)).Nodup) (h : (k, v) ∈ l) :
    alookup k l = some v := by
  induction l with
  | nil => simp at h
  | cons p ps ih =>
    simp only [List.map_cons, List.nodup_cons] at hn
    rcases List.mem_cons.mp h with h1 | h1
    · rw [← h1]
      simp [alookup]
    · have hne : p.1 ≠ k := by
        intro he
        exact hn.1 (by
          rw [he]
          exact List.mem_map.mpr ⟨(k, v), h1, rfl⟩)
      rw [alookup, if_neg hne]
      exact ih hn.2 h1

theorem alookup_perm {α β : Type} [DecidableEq α] {l l' : List (α × β)}
    (hp : l.Perm l') (hn : (l.map (fun p => p.1)).Nodup) (k : α) :
    alookup k l = alookup k l' := by
  have hpm : (l.map (fun p => p.1)).Perm (l'.map (fun p => p.1)) := hp.map (fun p => p.1)
  have hn' : (l'.map (fun p => p.1)).Nodup := hpm.nodup_iff.mp hn
  cases he : alookup k l with
  | none =>
    have hk : k ∉ l.map (fun p => p.1) := (alookup_eq_none_iff k l).mp he
    have hk' : k ∉ l'.map (fun p => p.1) := fun hc => hk (hpm.mem_iff.mpr hc)
    exact ((alookup_eq_none_iff k l').mpr hk').symm
  | some v =>
    exact (alookup_of_mem_of_nodupkeys hn' (hp.mem_iff.mp (alookup_mem he))).symm

theorem dict_foldl_insert_append {α β : Type} [DecidableEq α]
    (l : List (α × β)) (d : List (α × β))
    (h : ((d.map (fun p => p.1)) ++ (l.map (fun p => p.1))).Nodup) :
    l.foldl (fun d p => dictInsert d p.1 p.2) d = d ++ l := by
  induction l generalizing d with
  | nil => simp
  | cons p ps ih =>
    rw [List.map_cons] at h
    have hdis := (List.nodup_append.mp h).2.2
    have hmem : p.1 ∉ d.map (fun q => q.1) := fun hc => hdis hc (List.mem_cons_self _ _)
    have hnone : alookup p.1 d = none := (alookup_eq_none_iff p.1 d).mpr hmem
    have hstep : dictInsert d p.1 p.2 = d ++ [(p.1, p.2)] := by
      simp [dictInsert, hnone]
    have hnodup2 :
        (((d ++ [(p.1, p.2)]).map (fun q => q.1)) ++ ps.map (fun q => q.1)).Nodup := by
      simp only [List.map_append, List.map_cons, List.map_nil, List.append_assoc,
        List.singleton_append]
      exact h
    rw [List.foldl_cons, hstep, ih _ hnodup2, List.append_assoc]
    simp

theorem dictUpdate_eq_append {α β : Type} [DecidableEq α]
    (d upd : List (α × β))
    (h : ((d.map (fun p => p.1)) ++ (upd.map (fun p => p.1))).Nodup) :
    dictUpdate d upd = d ++ upd :=
  dict_foldl_insert_append upd d h

theorem dictOfPairs_eq_self {α β : Type} [DecidableEq α]
    (l : List (α × β)) (h : (l.map (fun p => p.1)).Nodup) :
    dictOfPairs l = l := by
  have := dict_foldl_insert_append l [] (by simpa using h)
  simpa [dictOfPairs] using this

theorem assignIds_map_fst (n : Nat) (l : List (String × Nat)) :
    (assignIds n l).map (fun p => p.1) = l.map (fun p => p.1) := by
  induction l generalizing n with
  | nil => rfl
  | cons p ps ih => simp [assignIds, ih]

theorem assignIds_map_snd (n : Nat) (l : List (String × Nat)) :
    (assignIds n l).map (fun p => p.2) = List.range' n l.length := by
  induction l generalizing n with
  | nil => rfl
  | cons p ps ih => simp [assignIds, ih, List.range'_succ]

theorem assignIds_length (n : Nat) (l : List (String × Nat)) :
    (assignIds n l).length = l.length := by
  induction l generalizing n with
  | nil => rfl
  | cons p ps ih => simp [assignIds, ih]

theorem foldl_max_range' : ∀ (k m a : Nat), a ≤ m →
    List.foldl Nat.max a (List.range' m (k + 1)) = m + k := by
  intro k
  induction k with
  | zero =>
    intro m a h
    simp [List.range'_succ, Nat.max_eq_right h]
  | succ j ih =>
    intro m a h
    rw [List.range'_succ, List.foldl_cons, show a.max m = m from Nat.max_eq_right h]
    rw [ih (m + 1) m (Nat.le_succ m)]
    omega

theorem pyMax_range' (n k : Nat) : pyMax (List.range' n (k + 1)) = some (n + k) := by
  cases k with
  | zero => simp [pyMax, List.range'_succ]
  | succ j =>
    rw [List.range'_succ]
    simp only [pyMax]
    rw [foldl_max_range' j (n + 1) n (Nat.le_succ n)]
    exact congrArg some (by omega)

theorem pyMax_eq_none_iff (l : List Nat) : pyMax l = none ↔ l = [] := by
  cases l <;> simp [pyMax]

theorem insertionSort_pairwise_lt {l : List (String × Nat)}
    (h : (l.map (fun p => p.2)).Nodup) :
    List.Pairwise (fun a b => a.2 < b.2) (List.insertionSort leSnd l) := by
  have hs : List.Sorted leSnd (List.insertionSort leSnd l) :=
    List.sorted_insertionSort leSnd l
  have hperm := List.perm_insertionSort leSnd l
  have hn : ((List.insertionSort leSnd l).map (fun p => p.2)).Nodup :=
    ((hperm.map (fun p => p.2)).nodup_iff).mpr h
  have hne : List.Pairwise (fun a b => a.2 ≠ b.2) (List.insertionSort leSnd l) :=
    (List.pairwise_map).mp hn
  exact (hs.and hne).imp (fun hab => lt_of_le_of_ne hab.1 hab.2)

theorem alookup_assignIds {l : List (String × Nat)} :
    ∀ (n : Nat) (t : String) (o : Nat),
    (l.map (fun p => p.1)).Nodup →
    List.Pairwise (fun a b => a.2 < b.2) l →
    (t, o) ∈ l →
    alookup t (assignIds n l) =
      some (n + l.countP (fun q => decide (q.2 < o))) := by
  induction l with
  | nil => intro n t o _ _ hm; simp at hm
  | cons p ps ih =>
    intro n t o hk hp hm
    simp only [List.map_cons, List.nodup_cons] at hk
    rcases List.pairwise_cons.mp hp with ⟨hlt, hp2⟩
    rcases List.mem_cons.mp hm with h1 | h1
    · have hpt : p.1 = t := by rw [← h1]
      have hpo : p.2 = o := by rw [← h1]
      have hcount0 : ps.countP (fun q => decide (q.2 < o)) = 0 := by
        rw [List.countP_eq_zero]
        intro q hq
        have := hlt q hq
        simp only [decide_eq_true_eq]
        omega
      simp only [assignIds, alookup, if_pos hpt, List.countP_cons,
        hcount0, hpo]
      simp
    · have hne : p.1 ≠ t := by
        intro he
        exact hk.1 (by
          rw [he]
          exact List.mem_map.mpr ⟨(t, o), h1, rfl⟩)
      have hplt : p.2 < o := by
        have hqo := hlt (t, o) h1
        exact hqo
      have ihr := ih (n + 1) t o hk.2 hp2 h1
      simp only [assignIds, alookup, if_neg hne, ihr, List.countP_cons]
      have : (decide (p.2 < o)) = true := by simp [hplt]
      rw [this]
      exact congrArg some (by simp only [if_true]; omega)

theorem remap_vocab_eq (vocab : List (String × Nat)) (structs : List SpecialTokenStruct)
    (s : Nat)
    (hv : (vocab.map (fun p => p.1)).Nodup)
    (hc : (structs.map (fun t => t.content)).Nodup)
    (hreg : vocab.filter (fun p => p.1 ∉ structs.map (fun t => t.content)) ≠ []) :
    remap_vocab vocab structs (some s) =
      some ((structs.map (fun t => (t.content, t.id))) ++
          assignIds s (List.insertionSort leSnd
            (vocab.filter (fun p => p.1 ∉ structs.map (fun t => t.content)))),
        s + (vocab.filter (fun p => p.1 ∉ structs.map (fun t => t.content))).length) := by
  have hst : (if 0 < structs.length then structs.map (fun t => t.content) else []) =
      structs.map (fun t => t.content) := by
    split
    · rfl
    · next h =>
      cases structs with
      | nil => rfl
      | cons a as => simp at h
  have hkeys : (structs.map (fun t => (t.content, t.id))).map (fun p => p.1) =
      structs.map (fun t => t.content) := by
    simp [List.map_map, Function.comp]
  have hinit : (if 0 < structs.length then
      dictOfPairs (structs.map (fun t => (t.content, t.id))) else []) =
      structs.map (fun t => (t.content, t.id)) := by
    split
    · exact dictOfPairs_eq_self _ (by rw [hkeys]; exact hc)
    · next h =>
      cases structs with
      | nil => rfl
      | cons a as => simp at h
  have hregsub : List.Sublist
      ((vocab.filter (fun p => p.1 ∉ structs.map (fun t => t.content))).map
        (fun p => p.1))
      (vocab.map (fun p => p.1)) :=
    List.Sublist.map (fun p => p.1) (List.filter_sublist vocab)
  have hregnodup :
      ((vocab.filter (fun p => p.1 ∉ structs.map (fun t => t.content))).map
        (fun p => p.1)).Nodup :=
    List.Nodup.sublist hregsub hv
  have hperm := List.perm_insertionSort leSnd
    (vocab.filter (fun p => p.1 ∉ structs.map (fun t => t.content)))
  have hsortkeys :
      ((List.insertionSort leSnd
        (vocab.filter (fun p => p.1 ∉ structs.map (fun t => t.content)))).map
          (fun p => p.1)).Nodup :=
    ((hperm.map (fun p => p.1)).nodup_iff).mpr hregnodup
  have hdisj : ∀ k, k ∈ structs.map (fun t => t.content) →
      k ∉ (List.insertionSort leSnd
        (vocab.filter (fun p => p.1 ∉ structs.map (fun t => t.content)))).map
          (fun p => p.1) := by
    intro k hk hmem
    rcases List.mem_map.mp hmem with ⟨q, hq, hq1⟩
    have hq2 := hperm.mem_iff.mp hq
    have := (List.mem_filter.mp hq2).2
    rw [hq1] at this
    exact (of_decide_eq_true this) hk
  have hcomb :
      (((structs.map (fun t => (t.content, t.id))).map (fun p => p.1)) ++
        ((assignIds s (List.insertionSort leSnd
          (vocab.filter (fun p => p.1 ∉ structs.map (fun t => t.content))))).map
            (fun p => p.1))).Nodup := by
    rw [hkeys, assignIds_map_fst]
    exact List.nodup_append.mpr ⟨hc, hsortkeys, hdisj⟩
  obtain ⟨q, qs, hq⟩ : ∃ q qs,
      vocab.filter (fun p => p.1 ∉ structs.map (fun t => t.content)) = q :: qs := by
    cases hx : vocab.filter (fun p => p.1 ∉ structs.map (fun t => t.content)) with
    | nil => exact absurd hx hreg
    | cons q qs => exact ⟨q, qs, rfl⟩
  have hlen : (List.insertionSort leSnd
      (vocab.filter (fun p => p.1 ∉ structs.map (fun t => t.content)))).length =
      qs.length + 1 := by
    rw [hperm.length_eq, hq]
    simp
  have hmax : pyMax ((assignIds s (List.insertionSort leSnd
      (vocab.filter (fun p => p.1 ∉ structs.map (fun t => t.content))))).map
        (fun p => p.2)) = some (s + qs.length) := by
    rw [assignIds_map_snd, hlen]
    exact pyMax_range' s qs.length
  simp only [remap_vocab, hst, hinit, hmax]
  rw [dictUpdate_eq_append _ _ hcomb]
  have : (vocab.filter (fun p => p.1 ∉ structs.map (fun t => t.content))).length =
      qs.length + 1 := by
    rw [hq]
    simp
  rw [this]
  rw [Nat.add_assoc]

theorem build_special_token_list_map_content (toks : List String) (si : Option Nat) :
    (build_special_token_list toks si).map (fun t => t.content) = toks := by
  simp only [build_special_token_list, List.map_map]
  have : ∀ (n : Nat) (l : List (String × Nat)),
      (assignIds n l).map ((fun t => t.content) ∘ (fun p =>
        ({ id := p.2, content := p.1 } : SpecialTokenStruct))) = l.map (fun p => p.1) := by
    intro n l
    induction l generalizing n with
    | nil => rfl
    | cons p ps ih => simp [assignIds, ih]
  rw [this]
  rw [List.map_map, show ((fun (p : String × Nat) => p.1) ∘ fun v => (v, 0)) = id from rfl,
    List.map_id]

theorem build_special_token_list_map_id (toks : List String) (si : Option Nat) :
    (build_special_token_list toks si).map (fun t => t.id) =
      List.range' (si.getD 0) toks.length := by
  simp only [build_special_token_list, List.map_map]
  have : ∀ (n : Nat) (l : List (String × Nat)),
      (assignIds n l).map ((fun t => t.id) ∘ (fun p =>
        ({ id := p.2, content := p.1 } : SpecialTokenStruct))) = List.range' n l.length := by
    intro n l
    induction l generalizing n with
    | nil => rfl
    | cons p ps ih => simp [assignIds, ih, List.range'_succ]
  rw [this]
  simp

/-- The common special-token structures of scenarios S1/S2 of the spec:
`<PAD>`, `<UNK>`, `<EOS>` with ids 0, 1, 2. -/
def structsPUE : List SpecialTokenStruct :=
  [ { id := 0, content := "<PAD>" }, { id := 1, content := "<UNK>" },
    { id := 2, content := "<EOS>" } ]

/-- C1: for every vocabulary with distinct original ids, special-token list
(with the spec's invariant of distinct contents) and starting index, and at
least one remaining regular token, `remap_vocab` keeps every special token
at its given id, assigns the regular tokens the consecutive ids
`start, start+1, ...` in ascending order of their original ids (a regular
token's new id is `start` plus the number of regular tokens with a smaller
original id), and returns `start + #regulars` as the next free id (the
largest newly assigned regular id plus one). -/
theorem claim1_remap_vocab_correct
    (vocab : List (String × Nat)) (structs : List SpecialTokenStruct) (s : Nat)
    (hv : (vocab.map (fun p => p.1)).Nodup)
    (hids : (vocab.map (fun p => p.2)).Nodup)
    (hc : (structs.map (fun t => t.content)).Nodup)
    (hreg : ∃ p, p ∈ vocab ∧ p.1 ∉ structs.map (fun t => t.content)) :
    ∃ nv,
      remap_vocab vocab structs (some s) =
        some (nv,
          s + (vocab.filter (fun p => p.1 ∉ structs.map (fun t => t.content))).length) ∧
      (∀ st, st ∈ structs → alookup st.content nv = some st.id) ∧
      (∀ t o, (t, o) ∈ vocab → t ∉ structs.map (fun t => t.content) →
        alookup t nv =
          some (s + ((vocab.filter (fun p => p.1 ∉ structs.map (fun t => t.content))).filter
            (fun q => decide (q.2 < o))).length)) := by
  have hregne : vocab.filter (fun p => p.1 ∉ structs.map (fun t => t.content)) ≠ [] := by
    intro hnil
    rcases hreg with ⟨p, hp, hnp⟩
    have := List.filter_eq_nil_iff.mp hnil p hp
    simp at this
    rcases this with ⟨x, hx, hxc⟩
    exact hnp (List.mem_map.mpr ⟨x, hx, hxc⟩)
  have hkeys : (structs.map (fun t => (t.content, t.id))).map (fun p => p.1) =
      structs.map (fun t => t.content) := by
    simp [List.map_map, Function.comp]
  refine ⟨(structs.map (fun t => (t.content, t.id))) ++
      assignIds s (List.insertionSort leSnd
        (vocab.filter (fun p => p.1 ∉ structs.map (fun t => t.content)))),
    remap_vocab_eq vocab structs s hv hc hregne, ?_, ?_⟩
  · intro st hst
    rw [alookup_append]
    have hm : (st.content, st.id) ∈ structs.map (fun t => (t.content, t.id)) :=
      List.mem_map.mpr ⟨st, hst, rfl⟩
    rw [alookup_of_mem_of_nodupkeys (by rw [hkeys]; exact hc) hm]
  · intro t o hto hnt
    rw [alookup_append]
    have hnone : alookup t (structs.map (fun t => (t.content, t.id))) = none := by
      rw [alookup_eq_none_iff, hkeys]
      exact hnt
    rw [hnone]
    have hperm := List.perm_insertionSort leSnd
      (vocab.filter (fun p => p.1 ∉ structs.map (fun t => t.content)))
    have hregsub : List.Sublist
        ((vocab.filter (fun p => p.1 ∉ structs.map (fun t => t.content))).map
          (fun p => p.1)) (vocab.map (fun p => p.1)) :=
      List.Sublist.map (fun p => p.1) (List.filter_sublist vocab)
    have hsortkeys :
        ((List.insertionSort leSnd
          (vocab.filter (fun p => p.1 ∉ structs.map (fun t => t.content)))).map
            (fun p => p.1)).Nodup :=
      ((hperm.map (fun p => p.1)).nodup_iff).mpr (List.Nodup.sublist hregsub hv)
    have hidsub : List.Sublist
        ((vocab.filter (fun p => p.1 ∉ structs.map (fun t => t.content))).map
          (fun p => p.2)) (vocab.map (fun p => p.2)) :=
      List.Sublist.map (fun p => p.2) (List.filter_sublist vocab)
    have hpl : List.Pairwise (fun a b => a.2 < b.2)
        (List.insertionSort leSnd
          (vocab.filter (fun p => p.1 ∉ structs.map (fun t => t.content)))) :=
      insertionSort_pairwise_lt (List.Nodup.sublist hidsub hids)
    have hmem : (t, o) ∈ List.insertionSort leSnd
        (vocab.filter (fun p => p.1 ∉ structs.map (fun t => t.content))) := by
      rw [hperm.mem_iff]
      exact List.mem_filter.mpr ⟨hto, by simpa using hnt⟩
    rw [alookup_assignIds s t o hsortkeys hpl hmem]
    rw [hperm.countP_eq]
    rw [List.countP_eq_length_filter]

/-- Witness for C1 at the AA sub-tokenizer of scenario S1: regular ids
start at 3, `C` (original id 1, one smaller regular id) receives 4, and the
returned next free id is 6. -/
theorem claim1_remap_vocab_correct_witness :
    ∃ nv, remap_vocab [("A", 0), ("C", 1), ("G", 2)] structsPUE (some 3) = some (nv, 6) ∧
      alookup "C" nv = some 4 := by
  obtain ⟨nv, h1, _, h3⟩ := claim1_remap_vocab_correct
    [("A", 0), ("C", 1), ("G", 2)] structsPUE 3
    (by decide) (by decide) (by decide) ⟨("A", 0), by decide, by decide⟩
  refine ⟨nv, ?_, ?_⟩
  · have hfl : (([("A", 0), ("C", 1), ("G", 2)] : List (String × Nat)).filter
        (fun p => p.1 ∉ structsPUE.map (fun t => t.content))).length = 3 := by decide
    rw [hfl] at h1
    exact h1
  · have hc := h3 "C" 1 (by decide) (by decide)
    have hfl : ((([("A", 0), ("C", 1), ("G", 2)] : List (String × Nat)).filter
        (fun p => p.1 ∉ structsPUE.map (fun t => t.content))).filter
          (fun q => decide (q.2 < 1))).length = 1 := by decide
    rw [hfl] at hc
    exact hc

/-- C8 counterexample: on an empty vocabulary (with no special structures
and starting index 0) `remap_vocab` does not return normally: the final
`max(regular_vocab.values())` is taken over an empty sequence and raises
`ValueError`, modelled by `none`.  The claim asserts the call returns
normally for every input, including an empty vocabulary. -/
theorem claim8_counterexample :
    remap_vocab ([] : List (String × Nat)) [] (some 0) = none := rfl

/-- C8 (amended): `remap_vocab` returns normally exactly when at least one
token of the vocabulary is not a special content; when the vocabulary is
empty or every token is a special content, the trailing
`max(regular_vocab.values())` raises `ValueError`. -/
theorem claim8_remap_vocab_totality (vocab : List (String × Nat))
    (structs : List SpecialTokenStruct) (si : Option Nat) :
    (remap_vocab vocab structs si).isSome = true ↔
      ∃ p, p ∈ vocab ∧ p.1 ∉ structs.map (fun t => t.content) := by
  have hst : (if 0 < structs.length then structs.map (fun t => t.content) else []) =
      structs.map (fun t => t.content) := by
    split
    · rfl
    · next h =>
      cases structs with
      | nil => rfl
      | cons a as => simp at h
  simp only [remap_vocab, hst]
  split
  · next heq =>
    rw [assignIds_map_snd, pyMax_eq_none_iff, List.range'_eq_nil] at heq
    have hsl := (List.perm_insertionSort leSnd
      (vocab.filter (fun p => p.1 ∉ structs.map (fun t => t.content)))).length_eq
    rw [heq] at hsl
    have hfe : vocab.filter (fun p => p.1 ∉ structs.map (fun t => t.content)) = [] :=
      List.eq_nil_of_length_eq_zero hsl.symm
    simp only [Option.isSome_none, Bool.false_eq_true, false_iff]
    intro hex
    rcases hex with ⟨p, hp, hnp⟩
    have := List.filter_eq_nil_iff.mp hfe p hp
    simp at this
    rcases this with ⟨x, hx, hxc⟩
    exact hnp (List.mem_map.mpr ⟨x, hx, hxc⟩)
  · next m heq =>
    rw [assignIds_map_snd] at heq
    have hne : (List.insertionSort leSnd
        (vocab.filter (fun p => p.1 ∉ structs.map (fun t => t.content)))).length ≠ 0 := by
      intro hc
      rw [hc] at heq
      simp [pyMax] at heq
    have hsl := (List.perm_insertionSort leSnd
      (vocab.filter (fun p => p.1 ∉ structs.map (fun t => t.content)))).length_eq
    have hfne : vocab.filter (fun p => p.1 ∉ structs.map (fun t => t.content)) ≠ [] := by
      intro hc
      apply hne
      rw [hsl, hc]
      rfl
    simp only [Option.isSome_some, true_iff]
    cases hx : vocab.filter (fun p => p.1 ∉ structs.map (fun t => t.content)) with
    | nil => exact absurd hx hfne
    | cons q qs =>
      have hqm : q ∈ vocab.filter (fun p => p.1 ∉ structs.map (fun t => t.content)) := by
        rw [hx]
        exact List.mem_cons_self _ _
      have := List.mem_filter.mp hqm
      exact ⟨q, this.1, by simpa using this.2⟩

/-- A minimal raw sub-tokenizer used by concrete construction scenarios. -/
def stT : SubTok := { name := "T", added_tokens := [], vocab := [("A", 0)] }

/-- C2 counterexample: a fresh build with one gathered special token and
`max_special_token_id = 0`.  The special exactly fills ids `0..0`
(`next = 1 = max_special_token_id + 1`), so the claim predicts success, but
the source checks `next_index > self._max_special_token_id` and raises
`ConfigError`. -/
theorem claim2_counterexample :
    init_fresh [stT] ["<PAD>"] [] none (some 0) = .error .configError ∧
    (gather_all_special_tokens ["<PAD>"] [] [stT]).length = 0 + 1 := ⟨rfl, rfl⟩

/-- C2 (amended): in a fresh build with `max_special_token_id` set and at
least one gathered special token, the construction check fails with
`ConfigError` exactly when `next > max_special_token_id` (not
`max_special_token_id + 1`), where `next` is the number of gathered special
tokens; when the check passes, `next` is set to `max_special_token_id + 1`.
In particular a build whose special-token count equals
`max_special_token_id + 1` fails even though the specials would exactly fill
`0..max_special_token_id`. -/
theorem claim2_special_budget_check (toks : List String) (mx : Nat) (h : toks ≠ []) :
    (fresh_build_next_index toks (some mx) = .error .configError ↔ mx < toks.length) ∧
    (toks.length ≤ mx → fresh_build_next_index toks (some mx) = .ok (mx + 1)) := by
  obtain ⟨k, hk⟩ : ∃ k, toks.length = k + 1 := by
    cases toks with
    | nil => exact absurd rfl h
    | cons a as => exact ⟨as.length, rfl⟩
  have hmax : pyMax ((build_special_token_list toks none).map (fun t => t.id)) =
      some k := by
    rw [build_special_token_list_map_id, hk]
    simpa using pyMax_range' 0 k
  refine ⟨⟨?_, ?_⟩, ?_⟩
  · intro he
    by_contra hlt
    push_neg at hlt
    simp only [fresh_build_next_index, hmax] at he
    rw [if_neg (by omega)] at he
    exact Except.noConfusion he
  · intro hlt
    simp only [fresh_build_next_index, hmax]
    rw [if_pos (by omega)]
  · intro hle
    simp only [fresh_build_next_index, hmax]
    rw [if_neg (by omega)]

/-- Witness for amended C2: three special tokens with
`max_special_token_id = 9` pass the check and set `next` to 10 (the spec's
scenario S2 layout). -/
theorem claim2_special_budget_check_witness :
    fresh_build_next_index ["<PAD>", "<UNK>", "<EOS>"] (some 9) = .ok 10 :=
  (claim2_special_budget_check ["<PAD>", "<UNK>", "<EOS>"] 9 (by decide)).2 (by decide)

theorem take_length_takeWhile {α : Type} (p : α → Bool) (l : List α) :
    l.take (l.takeWhile p).length = l.takeWhile p := by
  induction l with
  | nil => rfl
  | cons a as ih =>
    by_cases h : p a
    · simp [List.takeWhile_cons, h, ih]
    · simp [List.takeWhile_cons, h]

theorem isPrefixOf_drop_append : ∀ (l s : List Char), l.isPrefixOf s = true →
    l ++ s.drop l.length = s := by
  intro l
  induction l with
  | nil =>
    intro s _
    simp
  | cons a as ih =>
    intro s h
    cases s with
    | nil => simp [List.isPrefixOf] at h
    | cons b bs =>
      simp only [List.isPrefixOf, Bool.and_eq_true, beq_iff_eq] at h
      obtain ⟨hab, hrest⟩ := h
      simp only [List.length_cons, List.drop_succ_cons, List.cons_append, hab,
        List.cons.injEq, true_and]
      exact ih bs hrest

theorem match_directive_some {s name rest : List Char}
    (h : match_directive s = some (name, rest)) :
    s = directive_literal ++ name ++ '>' :: rest := by
  by_cases hp : directive_literal.isPrefixOf s
  · rw [match_directive, if_pos hp] at h
    split at h
    · next r heq =>
      simp only [Option.some.injEq, Prod.mk.injEq] at h
      rcases h with ⟨h1, h2⟩
      have hpre : directive_literal ++ s.drop directive_literal.length = s :=
        isPrefixOf_drop_append _ _ hp
      have ht : (s.drop directive_literal.length).take
          ((s.drop directive_literal.length).takeWhile (fun c => c != '>')).length =
          (s.drop directive_literal.length).takeWhile (fun c => c != '>') :=
        take_length_takeWhile _ _
      have hsplit := List.take_append_drop
        ((s.drop directive_literal.length).takeWhile (fun c => c != '>')).length
        (s.drop directive_literal.length)
      rw [ht, heq, h1, h2] at hsplit
      rw [← hpre, ← hsplit, List.append_assoc]
    · exact Option.noConfusion h
  · rw [match_directive, if_neg hp] at h
    exact Option.noConfusion h

theorem re_split_go_spec : ∀ (fuel : Nat) (s : List Char), s.length ≤ fuel →
    ∃ pre pairs, re_split_go fuel s = pre :: interleave pairs ∧
      s = pre ++ (pairs.map (fun p => directive_literal ++ p.1 ++ '>' :: p.2)).flatten := by
  intro fuel
  induction fuel with
  | zero =>
    intro s _
    exact ⟨s, [], rfl, by simp [interleave]⟩
  | succ fuel ih =>
    intro s hs
    cases s with
    | nil => exact ⟨[], [], rfl, by simp [interleave]⟩
    | cons c cs =>
      cases hm : match_directive (c :: cs) with
      | some nr =>
        obtain ⟨name, rest⟩ := nr
        have hrec := match_directive_some hm
        have hlen : rest.length ≤ fuel := by
          have hl := congrArg List.length hrec
          simp [List.length_append] at hl
          simp only [List.length_cons] at hs
          omega
        obtain ⟨pre2, pairs2, hgo, hs2⟩ := ih rest hlen
        refine ⟨[], (name, pre2) :: pairs2, ?_, ?_⟩
        · simp only [re_split_go, hm, hgo, interleave]
        · rw [hrec, hs2]
          simp [interleave]
      | none =>
        have hlen : cs.length ≤ fuel := by
          simp only [List.length_cons] at hs
          omega
        obtain ⟨pre2, pairs2, hgo, hs2⟩ := ih cs hlen
        refine ⟨c :: pre2, pairs2, ?_, ?_⟩
        · simp only [re_split_go, hm, hgo]
        · rw [List.cons_append, ← hs2]

theorem re_split_spec (s : List Char) :
    ∃ pre pairs, re_split s = pre :: interleave pairs ∧
      s = pre ++ (pairs.map (fun p => directive_literal ++ p.1 ++ '>' :: p.2)).flatten :=
  re_split_go_spec s.length s (Nat.le_refl _)

theorem evens_cons2 {α : Type} (x y : α) (l : List α) :
    evens (x :: y :: l) = x :: evens l := rfl

theorem odds_cons2 {α : Type} (x y : α) (l : List α) :
    odds (x :: y :: l) = y :: odds l := by
  cases l <;> rfl

theorem zip_evens_odds_interleave {α : Type} (pairs : List (α × α)) :
    List.zip (evens (interleave pairs)) (odds (interleave pairs)) = pairs := by
  induction pairs with
  | nil => rfl
  | cons p ps ih =>
    simp only [interleave, evens_cons2, odds_cons2, List.zip_cons_cons, ih]

theorem interleave_length {α : Type} (pairs : List (α × α)) :
    (interleave pairs).length = 2 * pairs.length := by
  induction pairs with
  | nil => rfl
  | cons p ps ih =>
    simp only [interleave, List.length_cons, ih]
    omega

/-- C3 counterexample: the input `x<@TOKENIZER-TYPE=AA>B` has the non-empty
prelude `x` before its first directive.  The claim predicts a `ParseError`;
the source drops the first element of the regex split unconditionally, so
the prelude is silently discarded and encoding proceeds with the single
segment `(AA, B)`. -/
theorem claim3_counterexample :
    re_split ("x<@TOKENIZER-TYPE=AA>B".toList) =
      ["x".toList, "AA".toList, "B".toList] ∧
    encode_parse_segments ("x<@TOKENIZER-TYPE=AA>B".toList) =
      .ok [("AA".toList, "B".toList)] := ⟨rfl, rfl⟩

/-- C3 (amended): the parsing stage of `encode` never rejects a non-empty
prelude — whatever text precedes the first directive is silently dropped.
It fails (with the length assertion, not a dedicated parse error) exactly
when the regex split produces a single piece, i.e. when the input contains
no directive at all; otherwise it returns the `(name, body)` pairs in
directive order, and the input decomposes as the dropped prelude followed
by the directive-delimited segments. -/
theorem claim3_encode_parse (s : List Char) :
    (encode_parse_segments s = .error .assertError ↔ (re_split s).length = 1) ∧
    (∀ pairs, encode_parse_segments s = .ok pairs →
      ∃ pre, re_split s = pre :: interleave pairs ∧
        s = pre ++ (pairs.map (fun p => directive_literal ++ p.1 ++ '>' :: p.2)).flatten) := by
  obtain ⟨pre, pairs, hsp, hrec⟩ := re_split_spec s
  have hdrop : (re_split s).drop 1 = interleave pairs := by
    rw [hsp]
    rfl
  have hlen2 : (interleave pairs).length = 2 * pairs.length := interleave_length pairs
  cases pairs with
  | nil =>
    have hres : encode_parse_segments s = .error .assertError := by
      rw [encode_parse_segments, hdrop]
      simp [interleave]
    constructor
    · rw [hres, hsp]
      simp [interleave]
    · intro pairs0 h0
      rw [hres] at h0
      exact Except.noConfusion h0
  | cons q qs =>
    have hres : encode_parse_segments s = .ok (q :: qs) := by
      rw [encode_parse_segments, hdrop]
      rw [if_pos ?side]
      case side =>
        constructor
        · rw [hlen2]
          simp only [List.length_cons]
          omega
        · rw [hlen2]
          simp only [List.length_cons]
          omega
      rw [zip_evens_odds_interleave]
    constructor
    · rw [hres, hsp]
      constructor
      · intro hc
        exact Except.noConfusion hc
      · intro hc
        simp only [List.length_cons, Nat.add_right_cancel_iff] at hc
        rw [hlen2] at hc
        simp at hc
    · intro pairs0 h0
      rw [hres] at h0
      have : q :: qs = pairs0 := by
        have := Except.ok.inj h0
        exact this
      rw [← this]
      exact ⟨pre, hsp, hrec⟩

/-- Witness for amended C3 on the directive-only input
`<@TOKENIZER-TYPE=AA>ACG`: the parse succeeds with the single pair
`(AA, ACG)` and the input reconstructs with an empty prelude. -/
theorem claim3_encode_parse_witness :
    ∃ pre, re_split ("<@TOKENIZER-TYPE=AA>ACG".toList) =
        pre :: interleave [("AA".toList, "ACG".toList)] ∧
      "<@TOKENIZER-TYPE=AA>ACG".toList =
        pre ++ ([("AA".toList, "ACG".toList)].map
          (fun p => directive_literal ++ p.1 ++ '>' :: p.2)).flatten :=
  (claim3_encode_parse ("<@TOKENIZER-TYPE=AA>ACG".toList)).2
    [("AA".toList, "ACG".toList)] rfl

/-- The raw (pre-remap) sub-tokenizers of spec scenario S1. -/
def S1subsIn : List SubTok :=
  [ { name := "AA", added_tokens := [], vocab := [("A", 0), ("C", 1), ("G", 2)] },
    { name := "SMILES", added_tokens := [], vocab := [("C", 0), ("N", 1), ("O", 2)] } ]

/-- The modular tokenizer built from scenario S1: shared specials at ids
0..2, AA regulars at 3..5, SMILES regulars at 6..8. -/
def S1mt : ModularTokenizerState :=
  { subs := [
      { name := "AA", added_tokens := structsPUE,
        vocab := [("<PAD>", 0), ("<UNK>", 1), ("<EOS>", 2),
          ("A", 3), ("C", 4), ("G", 5)] },
      { name := "SMILES", added_tokens := structsPUE,
        vocab := [("<PAD>", 0), ("<UNK>", 1), ("<EOS>", 2),
          ("C", 6), ("N", 7), ("O", 8)] } ],
    max_possible_token_id := none,
    max_special_token_id := none,
    decoder_dict := [
      (0, { token := "<PAD>", is_special := true }),
      (1, { token := "<UNK>", is_special := true }),
      (2, { token := "<EOS>", is_special := true }),
      (3, { token := "A", is_special := false }),
      (4, { token := "C", is_special := false }),
      (5, { token := "G", is_special := false }),
      (6, { token := "C", is_special := false }),
      (7, { token := "N", is_special := false }),
      (8, { token := "O", is_special := false }) ] }

/-- A single sub-tokenizer whose vocab maps two tokens to the same id — an
inconsistent vocabulary that `diagnose` nevertheless accepts. -/
def subX : SubTok := { name := "X", added_tokens := [], vocab := [("A", 0), ("B", 0)] }

/-- The modular tokenizer state holding only `subX`. -/
def mtDup : ModularTokenizerState :=
  { subs := [subX], max_possible_token_id := none, max_special_token_id := none,
    decoder_dict := build_inner_decoder [subX] }

/-- C9: with exactly one sub-tokenizer, `diagnose` reports every test as
passing and `is_consistent` returns true, whatever the vocabulary contains:
all three checks sit under `if len(tokenizer_types) > 1`. -/
theorem claim9_diagnose_single (mt : ModularTokenizerState) (h : mt.subs.length = 1) :
    diagnose mt = ⟨true, true, true⟩ ∧ is_consistent mt = true := by
  have hlt : ¬ (1 < mt.subs.length) := by omega
  constructor
  · rw [diagnose, if_neg hlt]
  · rw [is_consistent, diagnose, if_neg hlt]
    rfl

/-- Witness for C9 on a single sub-tokenizer with a duplicate-id vocabulary
(`A` and `B` both map to 0): every diagnose test still passes. -/
theorem claim9_diagnose_single_witness :
    mtDup.subs.length = 1 ∧ diagnose mtDup = ⟨true, true, true⟩ ∧
      is_consistent mtDup = true :=
  ⟨rfl, (claim9_diagnose_single mtDup rfl).1, (claim9_diagnose_single mtDup rfl).2⟩

/-- C10: in `skip_special_tokens=true` mode, `decode` silently drops both
ids marked special and ids absent from the decoder index — the
`<@TOKEN_MISSING-id>` sentinel is produced only by the
`skip_special_tokens=false` branch. -/
theorem claim10_decode_skip_drops (mt : ModularTokenizerState)
    (pre post : List Nat) (i : Nat)
    (h : alookup i mt.decoder_dict = none ∨
      ∃ e, alookup i mt.decoder_dict = some e ∧ e.is_special = true) :
    decode mt (pre ++ i :: post) true = decode mt (pre ++ post) true := by
  rw [decode, decode, if_pos rfl, if_pos rfl]
  rcases h with hnone | ⟨e, he, hsp⟩
  · simp only [List.filterMap_append, List.filterMap_cons, hnone]
  · simp [List.filterMap_append, List.filterMap_cons, he, hsp]

/-- Witness for C10 on S1: the unknown id 99 is dropped without producing a
sentinel when `skip_special_tokens=true`. -/
theorem claim10_decode_skip_drops_witness :
    decode S1mt ([0] ++ 99 :: [5]) true = decode S1mt ([0] ++ [5]) true :=
  claim10_decode_skip_drops S1mt [0] [5] 99 (Or.inl rfl)

theorem string_foldl_append (l : List String) :
    ∀ s : String, l.foldl (fun a b => a ++ b) s = s ++ String.join l := by
  induction l with
  | nil =>
    intro s
    simp [String.join]
  | cons x xs ih =>
    intro s
    have hj : String.join (x :: xs) = x ++ String.join xs := by
      rw [String.join, List.foldl_cons, ih ("" ++ x), String.empty_append]
    rw [List.foldl_cons, ih (s ++ x), hj, String.append_assoc]

theorem string_join_append (l1 l2 : List String) :
    String.join (l1 ++ l2) = String.join l1 ++ String.join l2 := by
  rw [String.join, List.foldl_append]
  rw [show List.foldl (fun a b => a ++ b) "" l1 = String.join l1 from rfl]
  exact string_foldl_append l2 (String.join l1)

theorem string_join_singleton (x : String) : String.join [x] = x := by
  rw [String.join, List.foldl_cons, List.foldl_nil, String.empty_append]

/-- C7: with `skip_special_tokens=false`, `decode` concatenates, in input
order, the decoder-index text of each known id and the
`<@TOKEN_MISSING-id>` sentinel for each unknown id: it distributes over
list append, renders a known singleton as its token text and an unknown
singleton as the sentinel; on scenario S1 (whose construction is verified
against `init_fresh`), `decode([0,3,4,5,2])` returns `<PAD>ACG<EOS>` and
with `skip_special_tokens=true` returns `ACG`. -/
theorem claim7_decode :
    (∀ (mt : ModularTokenizerState) (a b : List Nat),
      decode mt (a ++ b) false = decode mt a false ++ decode mt b false) ∧
    (∀ (mt : ModularTokenizerState) (i : Nat) (e : DecoderEntry),
      alookup i mt.decoder_dict = some e → decode mt [i] false = e.token) ∧
    (∀ (mt : ModularTokenizerState) (i : Nat),
      alookup i mt.decoder_dict = none →
        decode mt [i] false = "<@TOKEN_MISSING-" ++ toString i ++ ">") ∧
    (init_fresh S1subsIn ["<PAD>", "<UNK>", "<EOS>"] [] none none = .ok S1mt ∧
      decode S1mt [0, 3, 4, 5, 2] false = "<PAD>ACG<EOS>" ∧
      decode S1mt [0, 3, 4, 5, 2] true = "ACG") := by
  refine ⟨?_, ?_, ?_, rfl, rfl, rfl⟩
  · intro mt a b
    rw [decode, if_neg (by simp), List.map_append, string_join_append]
    rfl
  · intro mt i e he
    rw [decode, if_neg (by simp), List.map_cons, List.map_nil]
    simp only [he]
    exact string_join_singleton _
  · intro mt i he
    rw [decode, if_neg (by simp), List.map_cons, List.map_nil]
    simp only [he]
    exact string_join_singleton _

/-- Witness for C7: decoding the known singleton id 4 on S1 yields its
decoder-index text `C`. -/
theorem claim7_decode_witness : decode S1mt [4] false = "C" :=
  claim7_decode.2.1 S1mt 4 { token := "C", is_special := false } rfl

theorem dedup_eq_singleton_of_all_eq {l : List Nat} {i : Nat}
    (hne : l ≠ []) (hall : ∀ x ∈ l, x = i) : l.dedup = [i] := by
  induction l with
  | nil => exact absurd rfl hne
  | cons a as ih =>
    have ha : a = i := hall a (List.mem_cons_self _ _)
    by_cases hasnil : as = []
    · rw [hasnil, ha]
      rfl
    · have hrec : as.dedup = [i] :=
        ih hasnil (fun x hx => hall x (List.mem_cons_of_mem _ hx))
      have hias : i ∈ as := by
        rw [← List.mem_dedup, hrec]
        exact List.mem_cons_self _ _
      rw [List.dedup_cons_of_mem (show a ∈ as by rw [ha]; exact hias), hrec]

theorem two_mem_two_le_length {α : Type} {l : List α} {i j : α}
    (hi : i ∈ l) (hj : j ∈ l) (hne : i ≠ j) : 2 ≤ l.length := by
  match l with
  | [] => simp at hi
  | [a] =>
    simp at hi hj
    rw [hi, hj] at hne
    exact absurd rfl hne
  | a :: b :: rest =>
    simp only [List.length_cons]
    omega

/-- C6: `token_to_id` without a domain returns `None` when no sub-tokenizer
contains the text, the unique id when every containing sub-tokenizer agrees
on it, and raises `AmbiguousToken` when two sub-tokenizers map the text to
different ids; on scenario S1 (construction verified against `init_fresh`),
`token_to_id("C")` without domain raises and with domain `AA` returns 4. -/
theorem claim6_token_to_id :
    (∀ (mt : ModularTokenizerState) (token : String),
      (∀ st ∈ mt.subs, alookup token st.vocab = none) →
      token_to_id mt token none = .ok none) ∧
    (∀ (mt : ModularTokenizerState) (token : String) (i : Nat),
      (∃ st ∈ mt.subs, alookup token st.vocab = some i) →
      (∀ st ∈ mt.subs, ∀ j, alookup token st.vocab = some j → j = i) →
      token_to_id mt token none = .ok (some i)) ∧
    (∀ (mt : ModularTokenizerState) (token : String),
      (∃ st1 ∈ mt.subs, ∃ st2 ∈ mt.subs, ∃ a b, alookup token st1.vocab = some a ∧
        alookup token st2.vocab = some b ∧ a ≠ b) →
      token_to_id mt token none = .error .exceptionRaised) ∧
    (init_fresh S1subsIn ["<PAD>", "<UNK>", "<EOS>"] [] none none = .ok S1mt ∧
      token_to_id S1mt "C" none = .error .exceptionRaised ∧
      token_to_id S1mt "C" (some "AA") = .ok (some 4)) := by
  refine ⟨?_, ?_, ?_, rfl, rfl, rfl⟩
  · intro mt token hnone
    have hnil : mt.subs.filterMap (fun st => alookup token st.vocab) = [] :=
      List.filterMap_eq_nil_iff.mpr hnone
    rw [token_to_id, hnil]
    rfl
  · intro mt token i hex hall
    have hne : mt.subs.filterMap (fun st => alookup token st.vocab) ≠ [] := by
      rcases hex with ⟨st, hst, hl⟩
      intro hc
      have : i ∈ mt.subs.filterMap (fun st => alookup token st.vocab) :=
        List.mem_filterMap.mpr ⟨st, hst, hl⟩
      rw [hc] at this
      simp at this
    have hallmem : ∀ x ∈ mt.subs.filterMap (fun st => alookup token st.vocab), x = i := by
      intro x hx
      rcases List.mem_filterMap.mp hx with ⟨st, hst, hl⟩
      exact hall st hst x hl
    have hd : (mt.subs.filterMap (fun st => alookup token st.vocab)).dedup = [i] :=
      dedup_eq_singleton_of_all_eq hne hallmem
    rw [token_to_id, hd]
    rfl
  · intro mt token hex
    rcases hex with ⟨st1, hst1, st2, hst2, a, b, ha, hb, hab⟩
    have hia : a ∈ (mt.subs.filterMap (fun st => alookup token st.vocab)).dedup :=
      List.mem_dedup.mpr (List.mem_filterMap.mpr ⟨st1, hst1, ha⟩)
    have hib : b ∈ (mt.subs.filterMap (fun st => alookup token st.vocab)).dedup :=
      List.mem_dedup.mpr (List.mem_filterMap.mpr ⟨st2, hst2, hb⟩)
    have h2 : 2 ≤ (mt.subs.filterMap (fun st => alookup token st.vocab)).dedup.length :=
      two_mem_two_le_length hia hib hab
    rw [token_to_id]
    rw [if_neg (by omega), if_neg (by omega)]

/-- Witness for C6 on S1: `N` appears only in the SMILES sub-tokenizer and
resolves to id 7 without a domain. -/
theorem claim6_token_to_id_witness : token_to_id S1mt "N" none = .ok (some 7) := by
  refine claim6_token_to_id.2.1 S1mt "N" 7 ?_ ?_
  · exact ⟨S1mt.subs.get ⟨1, by decide⟩, List.get_mem _ _ _, rfl⟩
  · intro st hst j hj
    have hs : st = S1mt.subs.get ⟨0, by decide⟩ ∨ st = S1mt.subs.get ⟨1, by decide⟩ := by
      have hm : st ∈ S1mt.subs := hst
      rw [show S1mt.subs = [S1mt.subs.get ⟨0, by decide⟩, S1mt.subs.get ⟨1, by decide⟩]
        from rfl] at hm
      rcases List.mem_cons.mp hm with h | h
      · exact Or.inl h
      · rcases List.mem_cons.mp h with h2 | h2
        · exact Or.inr h2
        · simp at h2
    rcases hs with h | h
    · rw [h] at hj
      exact Option.noConfusion hj
    · rw [h] at hj
      exact (Option.some.inj hj).symm

/-- A one-sub-tokenizer state with specials `0..2` taken and
`max_special_token_id = 3`: exactly one special slot (id 3) remains. -/
def mtC4 : ModularTokenizerState :=
  { subs := [
      { name := "AA", added_tokens := structsPUE,
        vocab := [("<PAD>", 0), ("<UNK>", 1), ("<EOS>", 2),
          ("A", 4), ("C", 5), ("G", 6)] } ],
    max_possible_token_id := none,
    max_special_token_id := some 3,
    decoder_dict := build_inner_decoder [
      { name := "AA", added_tokens := structsPUE,
        vocab := [("<PAD>", 0), ("<UNK>", 1), ("<EOS>", 2),
          ("A", 4), ("C", 5), ("G", 6)] } ] }

/-- The spec's scenario S2/S5 state: specials `0..2`, regulars from 10,
`max_special_token_id = 9`. -/
def mtS5 : ModularTokenizerState :=
  { subs := [
      { name := "AA", added_tokens := structsPUE,
        vocab := [("<PAD>", 0), ("<UNK>", 1), ("<EOS>", 2),
          ("A", 10), ("C", 11), ("G", 12)] } ],
    max_possible_token_id := none,
    max_special_token_id := some 9,
    decoder_dict := build_inner_decoder [
      { name := "AA", added_tokens := structsPUE,
        vocab := [("<PAD>", 0), ("<UNK>", 1), ("<EOS>", 2),
          ("A", 10), ("C", 11), ("G", 12)] } ] }

/-- C4 counterexample: on `mtC4` (3 specials taken, `max_special_token_id
= 3`, so `start = 3`) the claim's budget `max_special_token_id + 1 - start
= 1` admits one new special token, yet the source checks
`max_id - next_id < len(tokens)` (3 - 3 < 1) and raises `BudgetExceeded`. -/
theorem claim4_counterexample :
    ¬ ((3 : Int) + 1 - 3 < 1) ∧
    add_special_tokens mtC4 ["<SEP>"] = .error .budgetExceeded :=
  ⟨by decide, rfl⟩

/-- C4 (amended): with `max_special_token_id = mx` set, existing specials
topping out at id `m` (so `start = m + 1`), and the remaining genuinely new
texts `new` non-empty and free of regular-token collisions,
`add_special_tokens` fails with `BudgetExceeded` exactly when
`mx - start < len(new)` — one less than the claim's
`mx + 1 - start < len(new)` budget — and otherwise succeeds returning
`len(new)`. -/
theorem claim4_add_special_budget
    (mt : ModularTokenizerState) (tokens : List String) (mx : Nat)
    (sv : List (String × Nat)) (m : Nat)
    (h1 : mt.max_special_token_id = some mx)
    (h2 : get_added_vocab mt = .ok sv)
    (h3 : pyMax (sv.map (fun p => p.2)) = some m)
    (h4 : ∀ t ∈ tokens.dedup.filter (fun t => t ∉ sv.map (fun p => p.1)),
      t ∉ mt.decoder_dict.map (fun q => q.2.token))
    (h5 : tokens.dedup.filter (fun t => t ∉ sv.map (fun p => p.1)) ≠ []) :
    ((mx : Int) - ((m : Int) + 1) <
        ((tokens.dedup.filter (fun t => t ∉ sv.map (fun p => p.1))).length : Int) →
      add_special_tokens mt tokens = .error .budgetExceeded) ∧
    (((tokens.dedup.filter (fun t => t ∉ sv.map (fun p => p.1))).length : Int) ≤
        (mx : Int) - ((m : Int) + 1) →
      ∃ mt2, add_special_tokens mt tokens =
        .ok (mt2, (tokens.dedup.filter (fun t => t ∉ sv.map (fun p => p.1))).length)) := by
  have hr : (tokens.dedup.filter (fun t => t ∉ sv.map (fun p => p.1))).filter
      (fun t => t ∈ mt.decoder_dict.map (fun q => q.2.token)) = [] :=
    List.filter_eq_nil_iff.mpr (fun a ha => by simpa using h4 a ha)
  have ht2 : (tokens.dedup.filter (fun t => t ∉ sv.map (fun p => p.1))).filter
      (fun t => t ∉ mt.decoder_dict.map (fun q => q.2.token)) =
      tokens.dedup.filter (fun t => t ∉ sv.map (fun p => p.1)) :=
    List.filter_eq_self.mpr (fun a ha => by simpa using h4 a ha)
  have hlen0 : ¬ ((tokens.dedup.filter (fun t => t ∉ sv.map (fun p => p.1))).length = 0) := by
    intro hc
    exact h5 (List.eq_nil_of_length_eq_zero hc)
  constructor
  · intro hlt
    simp only [add_special_tokens, h2, hr, ht2, h1, h3, List.length_nil,
      Nat.lt_irrefl, if_false]
    rw [if_neg hlen0, if_pos (show ((mx : Int) - ((m + 1 : Nat) : Int) < ((tokens.dedup.filter (fun t => t ∉ sv.map (fun p => p.1))).length : Int)) from by omega)]
  · intro hge
    simp only [add_special_tokens, h2, hr, ht2, h1, h3, List.length_nil,
      Nat.lt_irrefl, if_false]
    rw [if_neg hlen0, if_neg (show ¬ ((mx : Int) - ((m + 1 : Nat) : Int) < ((tokens.dedup.filter (fun t => t ∉ sv.map (fun p => p.1))).length : Int)) from by omega)]
    exact ⟨_, rfl⟩

/-- Witness for amended C4, the passing half of spec scenario S5: on `mtS5`
(`max_special_token_id = 9`, specials 0..2 taken) adding `<SEP>` succeeds
with one token created. -/
theorem claim4_add_special_budget_witness :
    ∃ mt2, add_special_tokens mtS5 ["<SEP>"] = .ok (mt2, 1) := by
  obtain ⟨mt2, hmt⟩ := (claim4_add_special_budget mtS5 ["<SEP>"] 9
    [("<PAD>", 0), ("<UNK>", 1), ("<EOS>", 2)] 2 rfl rfl rfl
    (by decide) (by decide)).2 (by decide)
  exact ⟨mt2, hmt⟩

/-- C5 counterexample: `mtDup` is a reachable single-sub-tokenizer state
(its duplicate-id vocabulary passes `diagnose`, see C9) on which
`add_special_tokens(["B"])` returns successfully — yet the pre-existing
assignment `B → 0` becomes `B → 1`: the decoder index missed `B` (id
collision), so the collision check does not see it and `update_vocab`
overwrites its id. -/
theorem claim5_counterexample :
    mtDup.subs.map (fun st => alookup "B" st.vocab) = [some 0] ∧
    (add_special_tokens mtDup ["B"]).map
      (fun r => (r.2, r.1.subs.map (fun st => alookup "B" st.vocab))) =
      .ok (1, [some 1]) :=
  ⟨rfl, rfl⟩

/-- C5 (amended): on a state whose decoder index covers every sub-tokenizer
token (guaranteed by the spec's invariants I3/I5, violated by the
counterexample state), a successful `add_special_tokens` call preserves
every pre-existing token-to-id assignment of every sub-tokenizer — both the
`added_tokens` structures (extended by a common suffix only) and every
`model.vocab` entry. -/
theorem claim5_add_special_preserves
    (mt : ModularTokenizerState) (tokens : List String)
    (hcov : ∀ st ∈ mt.subs, ∀ p ∈ st.vocab,
      p.1 ∈ mt.decoder_dict.map (fun q => q.2.token))
    (hnk : ∀ st ∈ mt.subs, (st.vocab.map (fun p => p.1)).Nodup)
    (mt2 : ModularTokenizerState) (n : Nat)
    (hok : add_special_tokens mt tokens = .ok (mt2, n)) :
    mt2.subs.length = mt.subs.length ∧
    ∃ ext : List SpecialTokenStruct,
      ∀ i (hi : i < mt.subs.length) (hi2 : i < mt2.subs.length),
        (mt2.subs.get ⟨i, hi2⟩).added_tokens =
          (mt.subs.get ⟨i, hi⟩).added_tokens ++ ext ∧
        ∀ t v, alookup t (mt.subs.get ⟨i, hi⟩).vocab = some v →
          alookup t (mt2.subs.get ⟨i, hi2⟩).vocab = some v := by
  cases hga : get_added_vocab mt with
  | error e =>
    rw [add_special_tokens, hga] at hok
    exact Except.noConfusion hok
  | ok sv =>
    simp only [add_special_tokens, hga] at hok
    split at hok
    · exact Except.noConfusion hok
    · split at hok
      · -- early return: no genuinely new tokens, the state is unchanged
        simp only [Except.ok.injEq, Prod.mk.injEq] at hok
        obtain ⟨hmt2, hn⟩ := hok
        subst hmt2
        refine ⟨rfl, [], ?_⟩
        intro i hi hi2
        refine ⟨(List.append_nil _).symm, ?_⟩
        intro t v hv
        exact hv
      · next hemp =>
        split at hok
        · exact Except.noConfusion hok
        · next next_id hnid =>
          simp only [Except.ok.injEq, Prod.mk.injEq] at hok
          obtain ⟨hmt2, hn⟩ := hok
          subst hmt2
          refine ⟨List.length_map _ _, ?_⟩
          refine ⟨build_special_token_list
            ((tokens.dedup.filter (fun t => t ∉ sv.map (fun p => p.1))).filter
              (fun t => t ∉ mt.decoder_dict.map (fun q => q.2.token))) (some next_id), ?_⟩
          intro i hi hi2
          have hget : ∀ (h2 : i < (mt.subs.map (fun st =>
              ({ name := st.name,
                 added_tokens := st.added_tokens ++ build_special_token_list
                   ((tokens.dedup.filter (fun t => t ∉ sv.map (fun p => p.1))).filter
                     (fun t => t ∉ mt.decoder_dict.map (fun q => q.2.token))) (some next_id),
                 vocab := update_vocab st.vocab (build_special_token_list
                   ((tokens.dedup.filter (fun t => t ∉ sv.map (fun p => p.1))).filter
                     (fun t => t ∉ mt.decoder_dict.map (fun q => q.2.token))) (some next_id)) }
                : SubTok))).length),
              (mt.subs.map (fun st =>
              ({ name := st.name,
                 added_tokens := st.added_tokens ++ build_special_token_list
                   ((tokens.dedup.filter (fun t => t ∉ sv.map (fun p => p.1))).filter
                     (fun t => t ∉ mt.decoder_dict.map (fun q => q.2.token))) (some next_id),
                 vocab := update_vocab st.vocab (build_special_token_list
                   ((tokens.dedup.filter (fun t => t ∉ sv.map (fun p => p.1))).filter
                     (fun t => t ∉ mt.decoder_dict.map (fun q => q.2.token))) (some next_id)) }
                : SubTok))).get ⟨i, h2⟩ =
              (fun st =>
              ({ name := st.name,
                 added_tokens := st.added_tokens ++ build_special_token_list
                   ((tokens.dedup.filter (fun t => t ∉ sv.map (fun p => p.1))).filter
                     (fun t => t ∉ mt.decoder_dict.map (fun q => q.2.token))) (some next_id),
                 vocab := update_vocab st.vocab (build_special_token_list
                   ((tokens.dedup.filter (fun t => t ∉ sv.map (fun p => p.1))).filter
                     (fun t => t ∉ mt.decoder_dict.map (fun q => q.2.token))) (some next_id)) }
                : SubTok)) (mt.subs.get ⟨i, hi⟩) := by
            intro h2
            rw [List.get_eq_getElem, List.get_eq_getElem, List.getElem_map]
          rw [hget hi2]
          refine ⟨rfl, ?_⟩
          intro t v hv
          have hstmem : mt.subs.get ⟨i, hi⟩ ∈ mt.subs := List.get_mem _ _ _
          have hnodupv := hnk _ hstmem
          have htok2nodup :
              ((tokens.dedup.filter (fun t => t ∉ sv.map (fun p => p.1))).filter
                (fun t => t ∉ mt.decoder_dict.map (fun q => q.2.token))).Nodup :=
            ((List.nodup_dedup tokens).filter _).filter _
          have hkeysSP : ((build_special_token_list
              ((tokens.dedup.filter (fun t => t ∉ sv.map (fun p => p.1))).filter
                (fun t => t ∉ mt.decoder_dict.map (fun q => q.2.token))) (some next_id)).map
                  (fun t => (t.content, t.id))).map (fun p => p.1) =
              (tokens.dedup.filter (fun t => t ∉ sv.map (fun p => p.1))).filter
                (fun t => t ∉ mt.decoder_dict.map (fun q => q.2.token)) := by
            rw [List.map_map]
            rw [show ((fun (p : String × Nat) => p.1) ∘
              (fun (t : SpecialTokenStruct) => (t.content, t.id))) =
              (fun (t : SpecialTokenStruct) => t.content) from rfl]
            exact build_special_token_list_map_content _ _
          have hfresh : ∀ c ∈ (tokens.dedup.filter (fun t => t ∉ sv.map (fun p => p.1))).filter
              (fun t => t ∉ mt.decoder_dict.map (fun q => q.2.token)),
              c ∉ (mt.subs.get ⟨i, hi⟩).vocab.map (fun p => p.1) := by
            intro c hc hcv
            have hcnotex : c ∉ mt.decoder_dict.map (fun q => q.2.token) := by
              have := (List.mem_filter.mp hc).2
              simpa using this
            rcases List.mem_map.mp hcv with ⟨p, hp, hp1⟩
            exact hcnotex (hp1 ▸ hcov _ hstmem p hp)
          have hcomb : (((mt.subs.get ⟨i, hi⟩).vocab.map (fun p => p.1)) ++
              (((build_special_token_list
                ((tokens.dedup.filter (fun t => t ∉ sv.map (fun p => p.1))).filter
                  (fun t => t ∉ mt.decoder_dict.map (fun q => q.2.token))) (some next_id)).map
                    (fun t => (t.content, t.id))).map (fun p => p.1))).Nodup := by
            rw [hkeysSP]
            refine List.nodup_append.mpr ⟨hnodupv, htok2nodup, ?_⟩
            intro a ha hb
            exact hfresh a hb ha
          have hupd := dictUpdate_eq_append ((mt.subs.get ⟨i, hi⟩).vocab)
            ((build_special_token_list
              ((tokens.dedup.filter (fun t => t ∉ sv.map (fun p => p.1))).filter
                (fun t => t ∉ mt.decoder_dict.map (fun q => q.2.token))) (some next_id)).map
                  (fun t => (t.content, t.id))) hcomb
          have hperm := List.perm_insertionSort leSnd
            (dictUpdate ((mt.subs.get ⟨i, hi⟩).vocab)
              ((build_special_token_list
                ((tokens.dedup.filter (fun t => t ∉ sv.map (fun p => p.1))).filter
                  (fun t => t ∉ mt.decoder_dict.map (fun q => q.2.token))) (some next_id)).map
                    (fun t => (t.content, t.id))))
          have hnodupupd : ((dictUpdate ((mt.subs.get ⟨i, hi⟩).vocab)
              ((build_special_token_list
                ((tokens.dedup.filter (fun t => t ∉ sv.map (fun p => p.1))).filter
                  (fun t => t ∉ mt.decoder_dict.map (fun q => q.2.token))) (some next_id)).map
                    (fun t => (t.content, t.id)))).map (fun p => p.1)).Nodup := by
            rw [hupd, List.map_append]
            exact hcomb
          have hsortkeys := ((hperm.map (fun p => p.1)).nodup_iff).mpr hnodupupd
          show alookup t (update_vocab ((mt.subs.get ⟨i, hi⟩).vocab)
            (build_special_token_list
              ((tokens.dedup.filter (fun t => t ∉ sv.map (fun p => p.1))).filter
                (fun t => t ∉ mt.decoder_dict.map (fun q => q.2.token))) (some next_id))) =
            some v
          rw [update_vocab, alookup_perm hperm hsortkeys t, hupd, alookup_append, hv]

/-- The state produced by adding `<MASK>` to the S1 tokenizer: the new
special receives the next free id 9 in every sub-tokenizer. -/
def S1mtMask : ModularTokenizerState :=
  { subs := [
      { name := "AA",
        added_tokens := structsPUE ++ [{ id := 9, content := "<MASK>" }],
        vocab := [("<PAD>", 0), ("<UNK>", 1), ("<EOS>", 2),
          ("A", 3), ("C", 4), ("G", 5), ("<MASK>", 9)] },
      { name := "SMILES",
        added_tokens := structsPUE ++ [{ id := 9, content := "<MASK>" }],
        vocab := [("<PAD>", 0), ("<UNK>", 1), ("<EOS>", 2),
          ("C", 6), ("N", 7), ("O", 8), ("<MASK>", 9)] } ],
    max_possible_token_id := none,
    max_special_token_id := none,
    decoder_dict := [
      (0, { token := "<PAD>", is_special := true }),
      (1, { token := "<UNK>", is_special := true }),
      (2, { token := "<EOS>", is_special := true }),
      (9, { token := "<MASK>", is_special := true }),
      (3, { token := "A", is_special := false }),
      (4, { token := "C", is_special := false }),
      (5, { token := "G", is_special := false }),
      (6, { token := "C", is_special := false }),
      (7, { token := "N", is_special := false }),
      (8, { token := "O", is_special := false }) ] }

/-- Witness for amended C5: adding `<MASK>` to the consistent S1 state
succeeds and every pre-existing assignment survives. -/
theorem claim5_add_special_preserves_witness :
    S1mtMask.subs.length = S1mt.subs.length ∧
    ∃ ext : List SpecialTokenStruct,
      ∀ i (hi : i < S1mt.subs.length) (hi2 : i < S1mtMask.subs.length),
        (S1mtMask.subs.get ⟨i, hi2⟩).added_tokens =
          (S1mt.subs.get ⟨i, hi⟩).added_tokens ++ ext ∧
        ∀ t v, alookup t (S1mt.subs.get ⟨i, hi⟩).vocab = some v →
          alookup t (S1mtMask.subs.get ⟨i, hi2⟩).vocab = some v :=
  claim5_add_special_preserves S1mt ["<MASK>"] (by decide) (by decide) S1mtMask 1 rfl
